import Mathlib

/-!
Verification of `delete_inactive_dns_aliases.py`: a one-shot utility that
reconciles DNS alias records in a single public hosted zone against the
currently active load balancers, deleting orphaned alias "A" records.

The Python source is shallowly embedded: strings become lists of characters,
the Python dict becomes an association list with replace-or-append insertion,
each remote call becomes an explicit outcome parameter (payload, provider
client error, or any other exception), and a Python exception escaping a
function becomes `Except.error`.
-/

namespace DeleteInactiveDnsAliases

/-- Python strings modelled as lists of characters. -/
abbrev Str := List Char

instance {ε α : Type} [DecidableEq ε] [DecidableEq α] : DecidableEq (Except ε α) :=
  fun a b =>
    match a, b with
    | .error x, .error y =>
      if h : x = y then isTrue (congrArg Except.error h)
      else isFalse (fun hc => h (Except.error.inj hc))
    | .ok x, .ok y =>
      if h : x = y then isTrue (congrArg Except.ok h)
      else isFalse (fun hc => h (Except.ok.inj hc))
    | .error _, .ok _ => isFalse (fun hc => Except.noConfusion hc)
    | .ok _, .error _ => isFalse (fun hc => Except.noConfusion hc)

/-- Outcome of one remote call together with the in-`try` processing of its
response: the payload on success, a provider `ClientError`, or any other
exception (for example a `KeyError` from a response missing an expected field). -/
inductive FetchOutcome (α : Type) where
  | ok (payload : α)
  | clientError
  | otherError
deriving DecidableEq

/-- One entry of the modern (`elbv2.describe_load_balancers`) response,
restricted to the fields the script reads: `State.Code`, `Type`,
`LoadBalancerArn`, `DNSName`. -/
structure ModernLB where
  stateCode : Str
  type : Str
  loadBalancerArn : Str
  dnsName : Str
deriving DecidableEq

/-- One entry of the legacy (`elb.describe_load_balancers`) response; the
script reads only `DNSName`. -/
structure ClassicLB where
  dnsName : Str
deriving DecidableEq

/-- The value stored in `loadbalancer_map` for one load balancer.  The classic
branch stores no `arn` key, modelled as `none`. -/
structure LBRecord where
  type : Str
  arn : Option Str
  dns_name : Str
deriving DecidableEq

/-- `loadbalancer_map`: a Python dict keyed by DNS name. -/
abbrev LBMap := List (Str × LBRecord)

/-- Python dict assignment `m[k] = v`: replace the value in place when the key
is present, otherwise append the new binding at the end. -/
def dictInsert (m : LBMap) (k : Str) (v : LBRecord) : LBMap :=
  match m with
  | [] => [(k, v)]
  | (a, b) :: rest => if a == k then (k, v) :: rest else (a, b) :: dictInsert rest k v

/-- Python `m.get(k)`: the value bound to `k`, or `None` when absent. -/
def dictGet (m : LBMap) (k : Str) : Option LBRecord :=
  (m.find? (fun p => p.1 == k)).map Prod.snd

/-- The literal `'active'` compared against `lb['State']['Code']`. -/
def strActive : Str := "active".toList

/-- The literal `'classic'` stored as the type of a legacy load balancer. -/
def strClassic : Str := "classic".toList

/-- The literal `'A'` compared against `record['Type']`. -/
def strA : Str := "A".toList

/-- The literal `'DELETE'` used as the change action. -/
def strDELETE : Str := "DELETE".toList

/-- The dict value stored for an active modern load balancer: its type, arn
and DNS name. -/
def modernVal (lb : ModernLB) : LBRecord :=
  { type := lb.type, arn := some lb.loadBalancerArn, dns_name := lb.dnsName }

/-- The dict value stored for a classic load balancer named `n`: type
`'classic'`, no arn. -/
def classicVal (n : Str) : LBRecord :=
  { type := strClassic, arn := none, dns_name := n }

/-- Body of the first loop of `list_loadbalancers`: an entry is stored only
when its state code is `'active'`, recording type, arn and DNS name. -/
def addModern (acc : LBMap) (lb : ModernLB) : LBMap :=
  if lb.stateCode == strActive then dictInsert acc lb.dnsName (modernVal lb)
  else acc

/-- Body of the second loop of `list_loadbalancers`: every legacy entry is
stored unconditionally with type `'classic'` and no arn. -/
def addClassic (acc : LBMap) (lb : ClassicLB) : LBMap :=
  dictInsert acc lb.dnsName (classicVal lb.dnsName)

/-- `list_loadbalancers`: both describe calls and both loops run inside one
`try` whose handler catches every `Exception` and returns `{}`.  The legacy
call happens only after the modern response was processed; an error raised by
either call discards everything and yields the empty map. -/
def list_loadbalancers (elbv2Resp : FetchOutcome (List ModernLB))
    (elbResp : FetchOutcome (List ClassicLB)) : LBMap :=
  match elbv2Resp with
  | .ok lbs1 =>
    match elbResp with
    | .ok lbs2 => lbs2.foldl addClassic (lbs1.foldl addModern [])
    | _ => []
  | _ => []

/-- One entry of the `list_hosted_zones` response, restricted to the fields
the script reads, including `Config.PrivateZone`. -/
structure RawZone where
  id : Str
  name : Str
  resourceRecordSetCount : Nat
  privateZone : Bool
deriving DecidableEq

/-- The projection of a hosted zone kept by `get_public_hosted_zones`. -/
structure HostedZone where
  id : Str
  name : Str
  recordCount : Nat
deriving DecidableEq

/-- `get_public_hosted_zones`: the `except` clause catches only the provider
`ClientError` (returning `[]`); any other exception escapes the function,
modelled as `Except.error`.  On success, private zones are filtered out. -/
def get_public_hosted_zones (resp : FetchOutcome (List RawZone)) :
    Except Unit (List HostedZone) :=
  match resp with
  | .ok zs => .ok ((zs.filter (fun z => !z.privateZone)).map
      (fun z => { id := z.id, name := z.name, recordCount := z.resourceRecordSetCount }))
  | .clientError => .ok []
  | .otherError => .error ()

/-- The alias target of a record set; the script reads only `DNSName`. -/
structure AliasTarget where
  dnsName : Str
deriving DecidableEq

/-- A resource record set as the script sees it: `Name`, `Type`, and an
optional `AliasTarget` (absent for records without one). -/
structure ResourceRecordSet where
  name : Str
  type : Str
  aliasTarget : Option AliasTarget
deriving DecidableEq

/-- The pagination loop of `get_dns_records`: pages are consumed in order,
extending the accumulator; a `ClientError` at any page abandons the loop and
the whole function returns the empty list, discarding the accumulator. -/
def fetchLoop (pages : List (Except Unit (List ResourceRecordSet)))
    (acc : List ResourceRecordSet) : List ResourceRecordSet :=
  match pages with
  | [] => acc
  | .ok page :: rest => fetchLoop rest (acc ++ page)
  | .error _ :: _ => []

/-- `get_dns_records` over the sequence of pages the paginator would yield. -/
def get_dns_records (pages : List (Except Unit (List ResourceRecordSet))) :
    List ResourceRecordSet :=
  fetchLoop pages []

/-- Python `s.removesuffix('.')`: drop the final character when it is a dot,
otherwise return the string unchanged. -/
def removesuffixDot (s : Str) : Str :=
  if s.getLast? == some '.' then s.dropLast else s

/-- The marking loop of `main`: for each record of `all_a_dns_records` the
script evaluates `r["AliasTarget"]["DNSName"]` with no membership check, so a
record without an alias target raises `KeyError`, modelled as `Except.error`;
otherwise the record is appended to `records_to_be_removed` exactly when the
stripped DNS name is absent from the load-balancer map. -/
def computeRemovals (lbMap : LBMap) (aRecords : List ResourceRecordSet) :
    Except Unit (List ResourceRecordSet) :=
  match aRecords with
  | [] => .ok []
  | r :: rest =>
    match r.aliasTarget with
    | none => .error ()
    | some tgt =>
      match computeRemovals lbMap rest with
      | .error e => .error e
      | .ok tail =>
        .ok (if (dictGet lbMap (removesuffixDot tgt.dnsName)).isNone
             then r :: tail else tail)

/-- One element of a `ChangeBatch`. -/
structure Change where
  action : Str
  resourceRecordSet : ResourceRecordSet
deriving DecidableEq

/-- One call to `change_resource_record_sets`. -/
structure ChangeCall where
  hostedZoneId : Str
  changes : List Change
deriving DecidableEq

/-- The console line printed after a successful delete. -/
def successMsg (r : ResourceRecordSet) : Str :=
  "Successfully removed DNS record ".toList ++ r.name

/-- The delete loop of `main`: one single-change DELETE call per marked
record, carrying the full record set; `status` gives the
`ResponseMetadata.HTTPStatusCode` of each response, and a success message is
printed exactly when it equals 200.  Nothing else happens on other statuses. -/
def runDeletes (zoneId : Str) (status : ResourceRecordSet → Nat)
    (rs : List ResourceRecordSet) : List ChangeCall × List Str :=
  match rs with
  | [] => ([], [])
  | r :: rest =>
    let out := runDeletes zoneId status rest
    ({ hostedZoneId := zoneId,
       changes := [{ action := strDELETE, resourceRecordSet := r }] } :: out.1,
     if status r == 200 then successMsg r :: out.2 else out.2)

/-- Observable outcome of one run of `main` after the zone list is known:
either one of the two early returns, a crash of the marking loop (`KeyError`
escaping `main`), or a completed run with the fetched records, the marked
records, the issued change calls and the success messages. -/
inductive MainOutcome where
  | noZones
  | multipleZones
  | crashed (fetched : List ResourceRecordSet)
  | finished (fetched : List ResourceRecordSet)
      (removed : List ResourceRecordSet)
      (calls : List ChangeCall) (messages : List Str)
deriving DecidableEq

/-- `main` from the zone-gate on: `if not zones: return`, then
`if len(zones) != 1: return`, then fetch the sole zone's records, keep the
`Type == "A"` ones, mark, and delete.  `getRecords` stands for
`get_dns_records` applied to a zone id, `status` for the HTTP status of each
delete response. -/
def mainRun (lbMap : LBMap) (zones : List HostedZone)
    (getRecords : Str → List ResourceRecordSet)
    (status : ResourceRecordSet → Nat) : MainOutcome :=
  match zones with
  | [] => .noZones
  | [z] =>
    let records := getRecords z.id
    let aRecs := records.filter (fun r => r.type == strA)
    match computeRemovals lbMap aRecs with
    | .error _ => .crashed records
    | .ok toRemove =>
      let out := runDeletes z.id status toRemove
      .finished records toRemove out.1 out.2
  | _ :: _ :: _ => .multipleZones

/-- The records fetched during a run, when the run got that far. -/
def fetchedOf : MainOutcome → Option (List ResourceRecordSet)
  | .noZones => none
  | .multipleZones => none
  | .crashed f => some f
  | .finished f _ _ _ => some f

/-- The change calls issued during a run. -/
def callsOf : MainOutcome → List ChangeCall
  | .finished _ _ cs _ => cs
  | _ => []

/-- Records appended by a page of the paginator; an errored page yields none. -/
def pageRecords : Except Unit (List ResourceRecordSet) → List ResourceRecordSet
  | .ok l => l
  | .error _ => []

/-- The boolean deciding whether an alias record is appended to
`records_to_be_removed`, defined only for records carrying an alias target. -/
def markedB (lbMap : LBMap) (r : ResourceRecordSet) : Bool :=
  match r.aliasTarget with
  | some tgt => (dictGet lbMap (removesuffixDot tgt.dnsName)).isNone
  | none => false

/-- Concrete load-balancer map holding the single DNS name `alb1.example.com`. -/
def exMap : LBMap :=
  [("alb1.example.com".toList,
    { type := strClassic, arn := none, dns_name := "alb1.example.com".toList })]

/-- Concrete alias "A" record whose target is in `exMap`. -/
def exAlias : ResourceRecordSet :=
  { name := "x.example.com.".toList, type := strA,
    aliasTarget := some { dnsName := "alb1.example.com.".toList } }

/-- Concrete alias "A" record whose target is absent from `exMap`. -/
def exStale : ResourceRecordSet :=
  { name := "y.example.com.".toList, type := strA,
    aliasTarget := some { dnsName := "stale.example.com.".toList } }

/-- Concrete CNAME record, never considered by the marking loop. -/
def exCname : ResourceRecordSet :=
  { name := "z.example.com.".toList, type := "CNAME".toList, aliasTarget := none }

/-- Concrete plain "A" record with no alias target. -/
def exPlainA : ResourceRecordSet :=
  { name := "p.example.com.".toList, type := strA, aliasTarget := none }

/-- Concrete hosted zone. -/
def exZone : HostedZone :=
  { id := "Z1".toList, name := "example.com.".toList, recordCount := 3 }

/-- Concrete modern load balancer, active, named `alb1.example.com`. -/
def exModern : ModernLB :=
  { stateCode := strActive, type := "application".toList,
    loadBalancerArn := "arn1".toList, dnsName := "alb1.example.com".toList }

/-- Concrete classic load balancer named `alb1.example.com`. -/
def exClassic : ClassicLB := { dnsName := "alb1.example.com".toList }

/-! Lemmas about the dict operations. -/

theorem dictGet_nil (n : Str) : dictGet [] n = none := rfl

theorem dictGet_cons (a : Str) (b : LBRecord) (m : LBMap) (n : Str) :
    dictGet ((a, b) :: m) n = if a = n then some b else dictGet m n := by
  by_cases h : a = n
  · simp [dictGet, List.find?_cons_of_pos, h]
  · simp [dictGet, List.find?_cons_of_neg, h]

theorem dictGet_insert_self (m : LBMap) (k : Str) (v : LBRecord) :
    dictGet (dictInsert m k v) k = some v := by
  induction m with
  | nil => simp [dictInsert, dictGet_cons]
  | cons p m ih =>
    obtain ⟨a, b⟩ := p
    by_cases h : a = k
    · simp [dictInsert, h, dictGet_cons]
    · simp only [dictInsert, beq_iff_eq, h, if_false]
      rw [dictGet_cons]
      simp [h, ih]

theorem dictGet_insert_ne (m : LBMap) (k : Str) (v : LBRecord) (n : Str)
    (hkn : k ≠ n) : dictGet (dictInsert m k v) n = dictGet m n := by
  induction m with
  | nil => simp [dictInsert, dictGet_cons, hkn, dictGet_nil]
  | cons p m ih =>
    obtain ⟨a, b⟩ := p
    by_cases h : a = k
    · subst h
      simp only [dictInsert, beq_self_eq_true, if_true]
      rw [dictGet_cons, dictGet_cons]
      simp [hkn]
    · simp only [dictInsert, beq_iff_eq, h, if_false]
      rw [dictGet_cons, dictGet_cons, ih]

theorem dictGet_insert (m : LBMap) (k : Str) (v : LBRecord) (n : Str) :
    dictGet (dictInsert m k v) n = if k = n then some v else dictGet m n := by
  by_cases hkn : k = n
  · subst hkn
    simp [dictGet_insert_self]
  · simp [hkn, dictGet_insert_ne m k v n hkn]

/-! Lemmas about the two merge loops of `list_loadbalancers`. -/

theorem foldClassic_get_not_mem (lbs : List ClassicLB) (acc : LBMap) (n : Str)
    (hn : n ∉ lbs.map ClassicLB.dnsName) :
    dictGet (lbs.foldl addClassic acc) n = dictGet acc n := by
  induction lbs generalizing acc with
  | nil => rfl
  | cons lb lbs ih =>
    have h1 : lb.dnsName ≠ n := by
      intro hc
      exact hn (by simp [hc])
    have h2 : n ∉ lbs.map ClassicLB.dnsName := by
      intro hc
      exact hn (by simp [hc])
    rw [List.foldl_cons, ih _ h2]
    exact dictGet_insert_ne acc lb.dnsName _ n h1

theorem foldClassic_get_mem (lbs : List ClassicLB) (acc : LBMap) (n : Str)
    (hn : n ∈ lbs.map ClassicLB.dnsName) :
    dictGet (lbs.foldl addClassic acc) n = some (classicVal n) := by
  induction lbs generalizing acc with
  | nil => simp at hn
  | cons lb lbs ih =>
    by_cases h : n ∈ lbs.map ClassicLB.dnsName
    · exact ih (addClassic acc lb) h
    · have hlb : lb.dnsName = n := by
        simp only [List.map_cons, List.mem_cons] at hn
        rcases hn with h1 | h2
        · exact h1.symm
        · exact absurd h2 h
      rw [List.foldl_cons, foldClassic_get_not_mem lbs _ n h]
      unfold addClassic
      rw [hlb]
      exact dictGet_insert_self acc n (classicVal n)

theorem foldModern_get_irrelevant (lbs : List ModernLB) (acc : LBMap) (n : Str)
    (hn : ∀ lb ∈ lbs, ¬ (lb.stateCode = strActive ∧ lb.dnsName = n)) :
    dictGet (lbs.foldl addModern acc) n = dictGet acc n := by
  induction lbs generalizing acc with
  | nil => rfl
  | cons lb lbs ih =>
    rw [List.foldl_cons, ih _ (fun x hx => hn x (List.mem_cons_of_mem lb hx))]
    unfold addModern
    cases hs : (lb.stateCode == strActive) with
    | true =>
      have hdns : lb.dnsName ≠ n := fun hc =>
        hn lb (List.mem_cons_self lb lbs) ⟨eq_of_beq hs, hc⟩
      simp only [if_true]
      exact dictGet_insert_ne acc lb.dnsName _ n hdns
    | false => simp

theorem foldModern_get_isSome_mono (lbs : List ModernLB) (acc : LBMap) (n : Str)
    (h : (dictGet acc n).isSome) :
    (dictGet (lbs.foldl addModern acc) n).isSome := by
  induction lbs generalizing acc with
  | nil => exact h
  | cons lb lbs ih =>
    rw [List.foldl_cons]
    apply ih
    unfold addModern
    cases hs : (lb.stateCode == strActive) with
    | true =>
      simp only [if_true]
      rw [dictGet_insert]
      by_cases hk : lb.dnsName = n
      · simp [hk]
      · simp [hk, h]
    | false => simpa

theorem foldModern_get_isSome (lbs : List ModernLB) (acc : LBMap) (n : Str)
    (h : ∃ lb ∈ lbs, lb.stateCode = strActive ∧ lb.dnsName = n) :
    (dictGet (lbs.foldl addModern acc) n).isSome := by
  induction lbs generalizing acc with
  | nil => simp at h
  | cons lb lbs ih =>
    rw [List.foldl_cons]
    rcases h with ⟨x, hx, hact, hdns⟩
    rcases List.mem_cons.mp hx with rfl | hx2
    · apply foldModern_get_isSome_mono
      unfold addModern
      rw [if_pos (by simp [hact])]
      rw [hdns, dictGet_insert_self]
      rfl
    · exact ih _ ⟨x, hx2, hact, hdns⟩

theorem foldModern_get_value (lbs : List ModernLB) (acc : LBMap) (n : Str)
    (v : LBRecord) (h : dictGet (lbs.foldl addModern acc) n = some v) :
    dictGet acc n = some v ∨
      ∃ lb ∈ lbs, lb.stateCode = strActive ∧ lb.dnsName = n ∧ v = modernVal lb := by
  induction lbs generalizing acc with
  | nil => exact Or.inl h
  | cons lb lbs ih =>
    rw [List.foldl_cons] at h
    rcases ih _ h with h1 | h2
    · unfold addModern at h1
      cases hs : (lb.stateCode == strActive) with
      | true =>
        rw [hs, if_pos rfl, dictGet_insert] at h1
        by_cases hk : lb.dnsName = n
        · rw [if_pos hk] at h1
          exact Or.inr ⟨lb, List.mem_cons_self lb lbs,
            eq_of_beq hs, hk, (Option.some.inj h1).symm⟩
        · rw [if_neg hk] at h1
          exact Or.inl h1
      | false =>
        rw [hs, if_neg (by simp)] at h1
        exact Or.inl h1
    · rcases h2 with ⟨x, hx, hact, hdns, hv⟩
      exact Or.inr ⟨x, List.mem_cons_of_mem lb hx, hact, hdns, hv⟩

/-! Lemmas about the marking loop. -/

theorem computeRemovals_ok_of_all (lbMap : LBMap) (l : List ResourceRecordSet)
    (h : ∀ r ∈ l, (r.aliasTarget).isSome) :
    computeRemovals lbMap l = .ok (l.filter (markedB lbMap)) := by
  induction l with
  | nil => rfl
  | cons r rest ih =>
    have hr := h r (List.mem_cons_self r rest)
    obtain ⟨tgt, htgt⟩ := Option.isSome_iff_exists.mp hr
    have hrest := ih (fun x hx => h x (List.mem_cons_of_mem r hx))
    simp only [computeRemovals, htgt, hrest]
    have hm : markedB lbMap r =
        (dictGet lbMap (removesuffixDot tgt.dnsName)).isNone := by
      simp [markedB, htgt]
    rw [List.filter_cons, hm]

theorem computeRemovals_ok_inv (lbMap : LBMap) (l : List ResourceRecordSet)
    (marked : List ResourceRecordSet)
    (h : computeRemovals lbMap l = .ok marked) :
    (∀ r ∈ l, (r.aliasTarget).isSome) ∧ marked = l.filter (markedB lbMap) := by
  induction l generalizing marked with
  | nil =>
    simp only [computeRemovals] at h
    refine ⟨by simp, ?_⟩
    simpa using (Except.ok.inj h).symm
  | cons r rest ih =>
    simp only [computeRemovals] at h
    cases htgt : r.aliasTarget with
    | none => rw [htgt] at h; cases h
    | some tgt =>
      rw [htgt] at h
      cases hrest : computeRemovals lbMap rest with
      | error e => rw [hrest] at h; cases h
      | ok tail =>
        rw [hrest] at h
        have hD := Except.ok.inj h
        obtain ⟨hall, htail⟩ := ih tail hrest
        refine ⟨?_, ?_⟩
        · intro x hx
          rcases List.mem_cons.mp hx with rfl | hx2
          · simp [htgt]
          · exact hall x hx2
        · have hm : markedB lbMap r =
              (dictGet lbMap (removesuffixDot tgt.dnsName)).isNone := by
            simp [markedB, htgt]
          rw [List.filter_cons, hm, ← htail, ← hD]

/-! Lemmas about the pagination loop. -/

theorem fetchLoop_error (pages : List (Except Unit (List ResourceRecordSet)))
    (acc : List ResourceRecordSet) (h : ∃ p ∈ pages, p = .error ()) :
    fetchLoop pages acc = [] := by
  induction pages generalizing acc with
  | nil => simp at h
  | cons p rest ih =>
    cases p with
    | error e => rfl
    | ok page =>
      rcases h with ⟨q, hq, he⟩
      rcases List.mem_cons.mp hq with rfl | hq2
      · cases he
      · exact ih _ ⟨q, hq2, he⟩

theorem fetchLoop_ok (pages : List (Except Unit (List ResourceRecordSet)))
    (acc : List ResourceRecordSet) (h : ∀ p ∈ pages, p ≠ .error ()) :
    fetchLoop pages acc = acc ++ (pages.map pageRecords).flatten := by
  induction pages generalizing acc with
  | nil => simp [fetchLoop]
  | cons p rest ih =>
    cases p with
    | error e =>
      cases e
      exact absurd rfl (h _ (List.mem_cons_self _ rest))
    | ok page =>
      have : fetchLoop (.ok page :: rest) acc = fetchLoop rest (acc ++ page) := rfl
      rw [this, ih _ (fun x hx => h x (List.mem_cons_of_mem _ hx))]
      simp [pageRecords]

/-! Claim theorems. -/

/-- C5: whenever a DNS name appears both in the modern inventory with state
`'active'` and in the legacy (classic) inventory, the merged mapping binds it
to the classic entry (type `'classic'`, no arn): the legacy loop runs second
and overwrites the modern binding. -/
theorem C5_classic_overwrites_modern (l1 : List ModernLB) (l2 : List ClassicLB)
    (n : Str) (_hmod : ∃ lb ∈ l1, lb.stateCode = strActive ∧ lb.dnsName = n)
    (hcls : n ∈ l2.map ClassicLB.dnsName) :
    dictGet (list_loadbalancers (.ok l1) (.ok l2)) n = some (classicVal n) ∧
    (classicVal n).type = strClassic := by
  refine ⟨?_, rfl⟩
  simp only [list_loadbalancers]
  exact foldClassic_get_mem l2 _ n hcls

/-- C5 witness: the name `alb1.example.com` appears active in the modern
inventory and in the classic inventory; the merged entry is the classic one. -/
theorem C5_classic_overwrites_modern_witness :
    dictGet (list_loadbalancers (.ok [exModern]) (.ok [exClassic]))
        "alb1.example.com".toList = some (classicVal "alb1.example.com".toList) ∧
    (classicVal "alb1.example.com".toList).type = strClassic :=
  C5_classic_overwrites_modern [exModern] [exClassic] "alb1.example.com".toList
    ⟨exModern, by simp, by decide, by decide⟩ (by decide)

/-- C6: a DNS name is a key of the merged mapping exactly when it names a
legacy load balancer (added unconditionally) or an active modern load
balancer; every stored value is either the classic entry or the record of an
active modern entry carrying its type, arn and DNS name. -/
theorem C6_merge_membership (l1 : List ModernLB) (l2 : List ClassicLB) (n : Str) :
    ((dictGet (list_loadbalancers (.ok l1) (.ok l2)) n).isSome ↔
      (n ∈ l2.map ClassicLB.dnsName ∨
        ∃ lb ∈ l1, lb.stateCode = strActive ∧ lb.dnsName = n)) ∧
    (∀ v, dictGet (list_loadbalancers (.ok l1) (.ok l2)) n = some v →
      (n ∈ l2.map ClassicLB.dnsName ∧ v = classicVal n) ∨
      (∃ lb ∈ l1, lb.stateCode = strActive ∧ lb.dnsName = n ∧ v = modernVal lb)) := by
  simp only [list_loadbalancers]
  constructor
  · constructor
    · intro hsome
      obtain ⟨v, hv⟩ := Option.isSome_iff_exists.mp hsome
      by_cases hcls : n ∈ l2.map ClassicLB.dnsName
      · exact Or.inl hcls
      · rw [foldClassic_get_not_mem l2 _ n hcls] at hv
        rcases foldModern_get_value l1 [] n v hv with h1 | h2
        · cases h1
        · exact Or.inr (by
            obtain ⟨lb, hm, ha, hd, _⟩ := h2
            exact ⟨lb, hm, ha, hd⟩)
    · intro h
      rcases h with hcls | hmod
      · rw [foldClassic_get_mem l2 _ n hcls]
        rfl
      · by_cases hcls : n ∈ l2.map ClassicLB.dnsName
        · rw [foldClassic_get_mem l2 _ n hcls]
          rfl
        · rw [foldClassic_get_not_mem l2 _ n hcls]
          exact foldModern_get_isSome l1 [] n hmod
  · intro v hv
    by_cases hcls : n ∈ l2.map ClassicLB.dnsName
    · rw [foldClassic_get_mem l2 _ n hcls] at hv
      exact Or.inl ⟨hcls, (Option.some.inj hv).symm⟩
    · rw [foldClassic_get_not_mem l2 _ n hcls] at hv
      rcases foldModern_get_value l1 [] n v hv with h1 | h2
      · cases h1
      · exact Or.inr h2

/-- C6 witness: an inactive modern load balancer is not a key of the merged
mapping, while a classic one is, with the classic value. -/
theorem C6_merge_membership_witness :
    ¬ (dictGet (list_loadbalancers
        (.ok [{ stateCode := "provisioning".toList, type := "application".toList,
                loadBalancerArn := "arn2".toList, dnsName := "idle.example.com".toList }])
        (.ok [exClassic])) "idle.example.com".toList).isSome ∧
    (dictGet (list_loadbalancers (.ok []) (.ok [exClassic]))
        "alb1.example.com".toList).isSome := by
  constructor
  · intro hsome
    have h := (C6_merge_membership
      [{ stateCode := "provisioning".toList, type := "application".toList,
         loadBalancerArn := "arn2".toList, dnsName := "idle.example.com".toList }]
      [exClassic] "idle.example.com".toList).1.mp hsome
    revert h
    decide
  · exact (C6_merge_membership [] [exClassic] "alb1.example.com".toList).1.mpr
      (Or.inl (by decide))

/-- C10: the hosted-zone lister converts a provider client error into an
empty list but lets any other exception escape, while the load-balancer
enumerator converts both kinds of exception, from either call, into the
empty mapping. -/
theorem C10_exception_asymmetry :
    get_public_hosted_zones .clientError = .ok [] ∧
    get_public_hosted_zones .otherError = .error () ∧
    (∀ r2 : FetchOutcome (List ClassicLB),
      list_loadbalancers .clientError r2 = [] ∧
      list_loadbalancers .otherError r2 = []) ∧
    (∀ l1 : List ModernLB,
      list_loadbalancers (.ok l1) .clientError = [] ∧
      list_loadbalancers (.ok l1) .otherError = []) :=
  ⟨rfl, rfl, fun _ => ⟨rfl, rfl⟩, fun _ => ⟨rfl, rfl⟩⟩

/-- C8: the delete loop issues exactly one single-change DELETE call per
marked record, carrying the full record-set payload, and emits a success
message for a record exactly when its response status is 200; other statuses
produce no message and no further call. -/
theorem C8_delete_requests (zoneId : Str) (status : ResourceRecordSet → Nat)
    (rs : List ResourceRecordSet) :
    (runDeletes zoneId status rs).1 = rs.map (fun r =>
      { hostedZoneId := zoneId,
        changes := [{ action := strDELETE, resourceRecordSet := r }] }) ∧
    (runDeletes zoneId status rs).2 =
      (rs.filter (fun r => status r == 200)).map successMsg := by
  induction rs with
  | nil => exact ⟨rfl, rfl⟩
  | cons r rest ih =>
    refine ⟨?_, ?_⟩
    · simp [runDeletes, ih.1]
    · simp only [runDeletes, List.filter_cons]
      cases h : (status r == 200) with
      | true => simp [h, ih.2]
      | false => simp [h, ih.2]

/-- C3 counterexample: with one successful page holding one record followed by
an erroring page, `get_dns_records` returns the empty list, not the records
accumulated before the failure. -/
theorem C3_partial_accumulation_counterexample :
    get_dns_records [.ok [exStale], .error ()] = [] ∧
    get_dns_records [.ok [exStale], .error ()] ≠ [exStale] := by decide

/-- C3 amended: on an error at any page the fetcher stops and returns the
empty list, discarding the pages accumulated before the failure; only when
every page succeeds does it return their concatenation in page order. -/
theorem C3_error_discards_accumulation
    (pages : List (Except Unit (List ResourceRecordSet))) :
    ((∃ p ∈ pages, p = .error ()) → get_dns_records pages = []) ∧
    ((∀ p ∈ pages, p ≠ .error ()) →
      get_dns_records pages = (pages.map pageRecords).flatten) := by
  constructor
  · intro h
    exact fetchLoop_error pages [] h
  · intro h
    rw [get_dns_records, fetchLoop_ok pages [] h]
    simp

/-- C3 amended witness: an erroring second page yields the empty list; two
successful pages yield both pages' records in order. -/
theorem C3_error_discards_accumulation_witness :
    get_dns_records [.ok [exStale], .error ()] = [] ∧
    get_dns_records [.ok [exAlias], .ok [exStale]] = [exAlias, exStale] := by
  constructor
  · exact (C3_error_discards_accumulation [.ok [exStale], .error ()]).1
      ⟨.error (), by simp, rfl⟩
  · have h := (C3_error_discards_accumulation [.ok [exAlias], .ok [exStale]]).2
      (by decide)
    exact h.trans (by decide)

/-- C1: evaluation at the failing input.  A type-"A" record with no alias
target makes the marking loop raise `KeyError` (the script reads
`r["AliasTarget"]["DNSName"]` with no check), so `main` crashes instead of
leaving the record unmarked. -/
theorem C1_missing_alias_target_crashes :
    computeRemovals exMap [exPlainA] = .error () ∧
    mainRun exMap [exZone] (fun _ => [exPlainA]) (fun _ => 200) =
      .crashed [exPlainA] := by decide

/-- C4: evaluation at the failing input.  Any exception in either inventory
query makes the enumerator return the empty map; downstream, an empty map
marks every alias "A" record when all "A" records carry alias targets, but a
zone that also holds a plain "A" record makes the run crash with `KeyError`
before marking anything. -/
theorem C4_enumeration_failure_empty_map :
    list_loadbalancers .otherError (.ok [exClassic]) = [] ∧
    list_loadbalancers (.ok [exModern]) .otherError = [] ∧
    computeRemovals [] [exAlias, exStale] = .ok [exAlias, exStale] ∧
    computeRemovals [] [exPlainA, exStale] = .error () ∧
    mainRun [] [exZone] (fun _ => [exPlainA, exStale]) (fun _ => 200) =
      .crashed [exPlainA, exStale] ∧
    callsOf (mainRun [] [exZone] (fun _ => [exPlainA, exStale]) (fun _ => 200)) =
      [] := by decide

/-- C2: with zero or with two or more public zones, `main` stops before
fetching any record set and issues no delete call; with exactly one zone it
proceeds and fetches that zone's records. -/
theorem C2_zone_count_gate (lbMap : LBMap) (zones : List HostedZone)
    (getRecords : Str → List ResourceRecordSet)
    (status : ResourceRecordSet → Nat) :
    (zones.length ≠ 1 →
      fetchedOf (mainRun lbMap zones getRecords status) = none ∧
      callsOf (mainRun lbMap zones getRecords status) = []) ∧
    (∀ z, zones = [z] →
      fetchedOf (mainRun lbMap zones getRecords status) = some (getRecords z.id)) := by
  constructor
  · intro hlen
    cases zones with
    | nil => exact ⟨rfl, rfl⟩
    | cons z zs =>
      cases zs with
      | nil => exact absurd rfl hlen
      | cons b t => exact ⟨rfl, rfl⟩
  · rintro z rfl
    simp only [mainRun]
    cases h : computeRemovals lbMap ((getRecords z.id).filter (fun r => r.type == strA)) with
    | error e => simp [h, fetchedOf]
    | ok toRemove => simp [h, fetchedOf]

/-- C2 witness: zero zones and two zones stop with nothing fetched and no
calls; one zone fetches its records. -/
theorem C2_zone_count_gate_witness :
    (fetchedOf (mainRun [] [] (fun _ => [exStale]) (fun _ => 200)) = none ∧
     callsOf (mainRun [] [] (fun _ => [exStale]) (fun _ => 200)) = []) ∧
    (fetchedOf (mainRun [] [exZone, exZone] (fun _ => [exStale]) (fun _ => 200)) = none ∧
     callsOf (mainRun [] [exZone, exZone] (fun _ => [exStale]) (fun _ => 200)) = []) ∧
    fetchedOf (mainRun [] [exZone] (fun _ => [exStale]) (fun _ => 200)) =
      some [exStale] :=
  ⟨(C2_zone_count_gate [] [] (fun _ => [exStale]) (fun _ => 200)).1 (by decide),
   (C2_zone_count_gate [] [exZone, exZone] (fun _ => [exStale]) (fun _ => 200)).1
     (by decide),
   (C2_zone_count_gate [] [exZone] (fun _ => [exStale]) (fun _ => 200)).2 exZone rfl⟩

/-- C9: if one run marks `marked` and the marked records are removed from the
zone, a second run over the remaining records with the same mapping marks
nothing. -/
theorem C9_second_run_marks_nothing (lbMap : LBMap)
    (records marked : List ResourceRecordSet)
    (h : computeRemovals lbMap (records.filter (fun r => r.type == strA)) =
      .ok marked) :
    computeRemovals lbMap
      ((records.filter (fun r => decide (r ∉ marked))).filter
        (fun r => r.type == strA)) = .ok [] := by
  obtain ⟨hall, hmark⟩ := computeRemovals_ok_inv _ _ _ h
  have hall2 : ∀ r ∈ (records.filter (fun r => decide (r ∉ marked))).filter
      (fun r => r.type == strA), (r.aliasTarget).isSome := by
    intro r hr
    have h1 := List.mem_filter.mp hr
    have h2 := List.mem_filter.mp h1.1
    exact hall r (List.mem_filter.mpr ⟨h2.1, h1.2⟩)
  have hnil : ((records.filter (fun r => decide (r ∉ marked))).filter
      (fun r => r.type == strA)).filter (markedB lbMap) = [] := by
    rw [List.filter_eq_nil_iff]
    intro r hr
    have h1 := List.mem_filter.mp hr
    have h2 := List.mem_filter.mp h1.1
    have hnot : r ∉ marked := of_decide_eq_true h2.2
    intro hmB
    apply hnot
    rw [hmark]
    exact List.mem_filter.mpr ⟨List.mem_filter.mpr ⟨h2.1, h1.2⟩, hmB⟩
  rw [computeRemovals_ok_of_all _ _ hall2, hnil]

/-- C9 witness: with the map holding `alb1.example.com`, the first run marks
the stale record; removing it makes a second run mark nothing. -/
theorem C9_second_run_marks_nothing_witness :
    computeRemovals exMap
      (([exAlias, exStale, exCname].filter (fun r => decide (r ∉ [exStale]))).filter
        (fun r => r.type == strA)) = .ok [] :=
  C9_second_run_marks_nothing exMap [exAlias, exStale, exCname] [exStale] (by decide)

/-- C7: the lookup strips exactly one trailing dot: appending a dot to any
name and stripping returns the name, a name not ending in a dot is unchanged,
and an alias target `s ++ "."` whose base `s` is a key of the mapping is not
marked for deletion. -/
theorem C7_trailing_dot_normalization (s : Str) (lbMap : LBMap) (nm : Str) :
    removesuffixDot (s ++ ['.']) = s ∧
    (s.getLast? ≠ some '.' → removesuffixDot s = s) ∧
    ((dictGet lbMap s).isSome →
      computeRemovals lbMap
        [{ name := nm, type := strA, aliasTarget := some { dnsName := s ++ ['.'] } }] =
        .ok []) := by
  have h1 : removesuffixDot (s ++ ['.']) = s := by
    simp [removesuffixDot, List.getLast?_concat, List.dropLast_concat]
  refine ⟨h1, ?_, ?_⟩
  · intro h
    simp [removesuffixDot, h]
  · intro hsome
    have h2 : (dictGet lbMap s).isNone = false := by
      rcases Option.isSome_iff_exists.mp hsome with ⟨v, hv⟩
      simp [hv]
    simp only [computeRemovals, h1, h2]
    rfl

/-- C7 witness: the alias target `alb1.example.com.` matches the mapping key
`alb1.example.com` and the record is not marked. -/
theorem C7_trailing_dot_normalization_witness :
    removesuffixDot ("alb1.example.com".toList ++ ['.']) = "alb1.example.com".toList ∧
    computeRemovals exMap
      [{ name := "x.example.com.".toList, type := strA,
         aliasTarget := some { dnsName := "alb1.example.com".toList ++ ['.'] } }] =
      .ok [] := by
  have h := C7_trailing_dot_normalization "alb1.example.com".toList exMap
    "x.example.com.".toList
  exact ⟨h.1, h.2.2 (by decide)⟩

end DeleteInactiveDnsAliases
